import Mathlib

/-!
Shallow embedding of the lmem allocator (src/lmem.c).

Modelling conventions:
* `size_t` values and pointers are `Nat`s reduced mod `W = 2^64` where the C
  arithmetic can wrap; addresses are byte addresses, `0` plays the role of
  `NULL` and `W - 1` the role of `(void *) -1` / `(struct memblk_t *) -1`.
* `sizeof (struct memblk_t)` is `H = 32` bytes (four 8-byte fields on LP64).
* The doubly linked, address-ordered heap block list (`head`/`tail` plus the
  `prev`/`next` fields of `struct memblk_t`) is represented as a Lean
  `List Blk` in list (= address) order.  Pointer surgery on `prev`/`next`
  becomes the corresponding list surgery; `head` is the first element, `tail`
  the last, and the `tail` updates of the C code are implicit in the list
  representation.  A block is located from a user pointer `p` by its header
  address `p - H`, which is how the C code reaches the header with
  `((struct memblk_t *) addr) - 1`.
* Mapping-resident blocks (the mmap path) never enter the heap list in the C
  code; they are kept in a separate `mapped` list.  Each carries the header
  fields the code writes (`size`, and `next` which the code tags with
  `LMEM_NEXT_MMAP`) plus a ghost field `osLen`, the length of the actual OS
  mapping, so that statements about `munmap`/`mremap` lengths can be made.
  The C dispatch `block->next == LMEM_NEXT_MMAP` becomes a lookup of the
  header address among the mapped headers followed by the same `next`-field
  test.
* The OS primitives (`_brk`, `mmap`, `munmap`, `mremap`) are external to
  src/.  They are modelled from the spec as oracles: `_brk` takes a target
  break address and returns the new break or the failure value `W - 1`;
  `mmap` takes a length and returns a base or fails; `mremap` takes old base,
  old length and new length and returns a new base or fails.
* Byte memory is a function `Mem : Nat → Nat`; `memset`/`memcpy` act on it
  pointwise.  Header fields live in the `Blk`/`MBlk` records, not in `Mem`.
-/

namespace LMem

/-- `sizeof (struct memblk_t)`: four 8-byte fields on LP64. -/
def H : Nat := 32

/-- `LMEM_PAGESIZE`. -/
def PAGE : Nat := 4096

/-- `2 ^ 64`: the modulus of `size_t` / pointer arithmetic. -/
def W : Nat := 2 ^ 64

/-- `LMEM_NEXT_MMAP = (struct memblk_t *) -1`, the mapping-origin tag. -/
def SENTINEL : Nat := W - 1

/-- `(struct memblk_t *) -1`, the failure value of the `_brk` wrapper. -/
def FAILP : Nat := W - 1

/-- `LMEM_MMAP_TRESHOLD = LMEM_PAGESIZE * 16`. -/
def TRESHOLD : Nat := PAGE * 16

/-- A heap-resident block header (`struct memblk_t`): its address, its
`isfree` flag and its `size` in header-sized units.  `prev`/`next` are
represented by list adjacency (see the file comment). -/
structure Blk where
  addr : Nat
  isfree : Bool
  size : Nat
  deriving DecidableEq, Repr

/-- A mapping-resident block header: address, the `size` field (bytes), the
`next` field (tagged `LMEM_NEXT_MMAP` by the code) and the ghost length
`osLen` of the OS mapping backing it. -/
structure MBlk where
  addr : Nat
  size : Nat
  next : Nat
  osLen : Nat
  deriving DecidableEq, Repr

/-- The allocator's process-wide state: the heap block list (`head`/`tail`
are its first/last element), the mapping-resident blocks, and the cached
break `last_break` (`0` = `NULL`, i.e. not yet initialised). -/
structure St where
  blocks : List Blk
  mapped : List MBlk
  lastBreak : Nat
  deriving DecidableEq, Repr

/-- The OS primitives, modelled from the spec as oracles (they are external
to the source): heap-break adjustment, anonymous mapping creation, and
mapping resize.  `brkO` returns the new break or `FAILP`; `mmapO` returns a
mapping base or `none` (`MAP_FAILED`); `mremapO old oldLen newLen` returns
the new base or `none`. -/
structure Oracles where
  brkO : Nat → Nat
  mmapO : Nat → Option Nat
  mremapO : Nat → Nat → Nat → Option Nat

/-- Byte memory. -/
abbrev Mem : Type := Nat → Nat

/-- `memset (dst, v, n)` on the byte memory. -/
def memset (m : Mem) (dst v n : Nat) : Mem :=
  fun a => if dst ≤ a ∧ a < dst + n then v else m a

/-- `memcpy (dst, src, n)` on the byte memory (reads the original memory, so
it is `memmove`-like on overlap; the source's call sites copy between
distinct blocks). -/
def memcpy (m : Mem) (dst src n : Nat) : Mem :=
  fun a => if dst ≤ a ∧ a < dst + n then m (src + (a - dst)) else m a

/-- The page rounding `(len + sizeof (struct memblk_t) + LMEM_PAGESIZE - 1)
& ~(LMEM_PAGESIZE - 1)` of lmem.c lines 149 and 281.  On 64-bit `size_t`
the masked value is the sum reduced mod `2^64` and then rounded down to a
multiple of `PAGE`, which is what dividing and re-multiplying computes. -/
def pageAlign (len : Nat) : Nat :=
  (len + H + PAGE - 1) % W / PAGE * PAGE

/-- The required size in header units computed at lmem.c line 165:
`(len + sizeof (struct memblk_t) - 1) / sizeof (struct memblk_t) + 1`.
(Reached only for `len < TRESHOLD`, so the C addition cannot wrap.) -/
def sizeReq (len : Nat) : Nat :=
  (len + H - 1) / H + 1

/-- `new_memblk` (lmem.c lines 53-68): queries the break on first use,
advances it by `size` header units (pointer arithmetic, hence `size * H`
bytes, mod `2^64`), stores the syscall's return into `last_break`, and on
success returns `last_break - size` (again pointer arithmetic mod `2^64`).
Returns `(new last_break, result)`; the result is `FAILP` on failure. -/
def new_memblk (brkO : Nat → Nat) (lb : Nat) (size : Nat) : Nat × Nat :=
  let lb0 := if lb = 0 then brkO 0 % W else lb
  let lb1 := brkO ((lb0 + size * H) % W) % W
  if lb1 = FAILP then (lb1, FAILP)
  else (lb1, (lb1 + W - size * H % W) % W)

/-- `lmem_split_block` (lmem.c lines 73-98) viewed on one block: the lower
part keeps the block's address and `isfree` flag and gets size `size`; the
upper part sits `size` header units higher (`upper = block + size`), is
free, and gets the remaining size.  The relinking of `prev`/`next` (and the
`tail` update when `block` was last) is the placement of the pair in the
list at the block's position, done at the call sites. -/
def lmem_split_block (b : Blk) (size : Nat) : Blk × Blk :=
  ({ b with size := size },
   { addr := b.addr + size * H, isfree := true, size := b.size - size })

/-- The first-fit loop of `lmalloc` (lmem.c lines 168-179): scan from
`head`; at the first free block with `size` ≥ the request, split when
strictly larger, mark it in-use, and return `block + 1`.  Returns the
updated list and the usable pointer, or `none` when no block fits. -/
def ffAlloc (size : Nat) : List Blk → Option (List Blk × Nat)
  | [] => none
  | b :: rest =>
    if b.isfree = true ∧ size ≤ b.size then
      if size < b.size then
        let lo := (lmem_split_block b size).1
        let up := (lmem_split_block b size).2
        some ({ lo with isfree := false } :: up :: rest, b.addr + H)
      else
        some ({ b with isfree := false } :: rest, b.addr + H)
    else
      match ffAlloc size rest with
      | some (rest', q) => some (b :: rest', q)
      | none => none

/-- `lmalloc_new_block` (lmem.c lines 103-134): grow the heap via
`new_memblk`; on failure return `NULL` (the break cache was already
updated inside `new_memblk`); otherwise the new in-use block of the given
size is appended at `tail` (updating `head` when the list was empty) and
`block + 1` is returned. -/
def lmalloc_new_block (os : Oracles) (st : St) (size : Nat) : St × Nat :=
  let r := new_memblk os.brkO st.lastBreak size
  if r.2 = FAILP then ({ st with lastBreak := r.1 }, 0)
  else
    ({ st with lastBreak := r.1,
               blocks := st.blocks ++ [⟨r.2, false, size⟩] }, r.2 + H)

/-- `lmalloc` (lmem.c lines 139-183).  At or above the threshold: round the
header-inclusive length to page granularity, `mmap` it, tag the header's
`next` with `LMEM_NEXT_MMAP`, record the byte size, and return `block + 1`
(`NULL` on `MAP_FAILED`).  Below the threshold: first-fit over the heap
list, else grow the heap. -/
def lmalloc (os : Oracles) (st : St) (len : Nat) : St × Nat :=
  if TRESHOLD ≤ len then
    let len' := pageAlign len
    match os.mmapO len' with
    | none => (st, 0)
    | some a =>
      ({ st with mapped := ⟨a, len', SENTINEL, len'⟩ :: st.mapped }, a + H)
  else
    match ffAlloc (sizeReq len) st.blocks with
    | some (bs', q) => ({ st with blocks := bs' }, q)
    | none => lmalloc_new_block os st (sizeReq len)

/-- `lcalloc` (lmem.c lines 188-200): the unchecked `size_t` product
`nlen * len` (mod `2^64`), delegation to `lmalloc`, and a `memset` of the
whole region to zero when the allocation succeeded. -/
def lcalloc (os : Oracles) (st : St) (mem : Mem) (nlen len : Nat) :
    St × Mem × Nat :=
  let size := nlen * len % W
  let r := lmalloc os st size
  if r.2 = 0 then (r.1, mem, 0)
  else (r.1, memset mem r.2 0 size, r.2)

/-- `lfree_left_merge` (lmem.c lines 205-229) on a block `b` with left
neighbour `l` (`none` when `b` is `head`): when `l` exists and is free, `b`
is unlinked and absorbed into `l` (`l.size += b.size`; the `tail` update is
implicit in the list representation); otherwise `b` is only marked free.
The returned segment replaces `[l?, b]` in the list. -/
def lfree_left_merge : Option Blk → Blk → List Blk
  | some l, b =>
    if l.isfree = true then [{ l with size := l.size + b.size }]
    else [l, { b with isfree := true }]
  | none, b => [{ b with isfree := true }]

/-- The heap path of `lfree` (lmem.c lines 252-259) at the located block:
`lfree_left_merge (block)`, then, when `block->next` exists and is free,
`lfree_left_merge (block->next)`.  After the first merge the right
neighbour's `prev` is the last block of the produced segment (either the
still-in-place freed block or the left neighbour it got absorbed into), so
the second call acts on that last block and the right neighbour. -/
def lfreeAt (l : Option Blk) (b : Blk) (rest : List Blk) : List Blk :=
  let seg := lfree_left_merge l b
  match rest with
  | r :: rs =>
    if r.isfree = true then
      seg.dropLast ++
        (match seg.getLast? with
         | some last => lfree_left_merge (some last) r
         | none => lfree_left_merge none r) ++ rs
    else seg ++ r :: rs
  | [] => seg

/-- Walk the heap list to the block whose header address is `a` (the C code
jumps there directly by pointer arithmetic) carrying the previous block,
and apply `lfreeAt` there.  A pointer matching no block is undefined
behaviour in C; here the list is returned unchanged. -/
def lfreeHeapGo (a : Nat) : Blk → List Blk → List Blk
  | p, [] => [p]
  | p, b :: rest =>
    if b.addr = a then lfreeAt (some p) b rest
    else p :: lfreeHeapGo a b rest

/-- The heap path of `lfree`, from the list head (`prev = NULL` there). -/
def lfreeHeap (a : Nat) : List Blk → List Blk
  | [] => []
  | b :: rest =>
    if b.addr = a then lfreeAt none b rest
    else lfreeHeapGo a b rest

/-- `lfree` (lmem.c lines 234-260): a `NULL` address returns at once (the
header address `addr - 1` is computed but never dereferenced); a header
whose `next` field is `LMEM_NEXT_MMAP` is released with
`munmap (block, block->size)` — the performed `munmap` call is returned as
the second component `(base, length)`; otherwise the heap-path coalescing
runs.  The header of a user pointer `p` sits at `p - H`. -/
def lfree (st : St) (p : Nat) : St × Option (Nat × Nat) :=
  if p = 0 then (st, none)
  else
    match st.mapped.find? (fun m => m.addr == p - H) with
    | some m =>
      if m.next = SENTINEL then
        ({ st with mapped := st.mapped.filter (fun x => x.addr != p - H) },
         some (p - H, m.size))
      else ({ st with blocks := lfreeHeap (p - H) st.blocks }, none)
    | none => ({ st with blocks := lfreeHeap (p - H) st.blocks }, none)

/-- `lrealloc` (lmem.c lines 265-306).  `NULL` behaves as `malloc (len)`
(which is `lmalloc`, lmem.c line 16).  A mapping-tagged header is resized
with `mremap (block, block->size, pageAlign len, MREMAP_MAYMOVE)`; on
success the stored size becomes the rounded length.  Otherwise a new block
is allocated with `lmalloc (len)`, `len` bytes are copied from the old
region, and the old block is freed. -/
def lrealloc (os : Oracles) (st : St) (mem : Mem) (p len : Nat) :
    St × Mem × Nat :=
  if p = 0 then
    let r := lmalloc os st len
    (r.1, mem, r.2)
  else
    match st.mapped.find? (fun m => m.addr == p - H) with
    | some m =>
      if m.next = SENTINEL then
        let len' := pageAlign len
        match os.mremapO m.addr m.size len' with
        | none => (st, mem, 0)
        | some a =>
          ({ st with mapped :=
              ⟨a, len', SENTINEL, len'⟩ ::
                st.mapped.filter (fun x => x.addr != p - H) }, mem, a + H)
      else
        let r := lmalloc os st len
        if r.2 = 0 then (r.1, mem, 0)
        else ((lfree r.1 p).1, memcpy mem r.2 p len, r.2)
    | none =>
      let r := lmalloc os st len
      if r.2 = 0 then (r.1, mem, 0)
      else ((lfree r.1 p).1, memcpy mem r.2 p len, r.2)

/-! ### Invariants (spec §3) -/

/-- The loop condition of the first-fit scan (lmem.c line 170): the block is
free and large enough. -/
def fits (size : Nat) (b : Blk) : Prop :=
  b.isfree = true ∧ size ≤ b.size

instance (size : Nat) (b : Blk) : Decidable (fits size b) := by
  unfold fits; infer_instance

/-- Invariant 1: each block's end address equals its successor's start
address. -/
def contiguous : List Blk → Bool
  | b :: c :: rest => (c.addr == b.addr + b.size * H) && contiguous (c :: rest)
  | _ => true

/-- Invariant 2: no two list-adjacent blocks are both free. -/
def noTwoFree : List Blk → Bool
  | b :: c :: rest => (!(b.isfree && c.isfree)) && noTwoFree (c :: rest)
  | _ => true

/-- The `isfree` flag of the list's first block (`false` for the empty
list). -/
def headFree : List Blk → Bool
  | [] => false
  | b :: _ => b.isfree

/-- Invariant on mapping-resident blocks: the stored `size` is the length of
the OS mapping, page-aligned, and the `next` field carries the
mapping-origin tag. -/
def MappedInv (st : St) : Prop :=
  ∀ m ∈ st.mapped, m.size = m.osLen ∧ m.osLen % PAGE = 0 ∧ m.next = SENTINEL

instance (st : St) : Decidable (MappedInv st) := by
  unfold MappedInv; infer_instance

/-- The adjacency relation of invariant 1, for `List.Chain'` reasoning. -/
def adjOK (x y : Blk) : Prop :=
  y.addr = x.addr + x.size * H

/-! ### Concrete inputs used to instantiate the theorems -/

/-- A concrete break oracle: the first query (target 0) reports break
8192, any adjustment is granted exactly. -/
def wBrk : Nat → Nat := fun x => if x = 0 then 8192 else x

/-- Concrete oracles: the break oracle above; mappings are granted at
base 1048576; remaps succeed in place. -/
def wOS : Oracles := ⟨wBrk, fun _ => some 1048576, fun a _ _ => some a⟩

/-- Concrete oracles whose every OS call fails. -/
def wOSFail : Oracles := ⟨fun _ => FAILP, fun _ => none, fun _ _ _ => none⟩

/-- A concrete heap state: an in-use block of 2 units at 4096, a free
block of 3 units at 4160, cached break 4256. -/
def wST : St := ⟨[⟨4096, false, 2⟩, ⟨4160, true, 3⟩], [], 4256⟩

/-- A concrete heap state with no free block. -/
def wSTFull : St := ⟨[⟨4096, false, 2⟩], [], 4160⟩

/-- A concrete state holding one mapping-resident block. -/
def wSTM : St := ⟨[], [⟨1048576, 69632, SENTINEL, 69632⟩], 0⟩

/-- Constant byte memory. -/
def wMem : Mem := fun _ => 7

/-! ### Helper lemmas -/

lemma contiguous_cons2 (b c : Blk) (rest : List Blk) :
    contiguous (b :: c :: rest) =
      ((c.addr == b.addr + b.size * H) && contiguous (c :: rest)) := rfl

lemma contiguous_iff_chain : ∀ bs : List Blk,
    contiguous bs = true ↔ List.Chain' adjOK bs
  | [] => by simp [contiguous]
  | [b] => by simp [contiguous]
  | b :: c :: rest => by
    rw [List.chain'_cons, ← contiguous_iff_chain (c :: rest), contiguous_cons2]
    simp [adjOK]

lemma noTwoFree_cons2 (b c : Blk) (rest : List Blk) :
    noTwoFree (b :: c :: rest) =
      ((!(b.isfree && c.isfree)) && noTwoFree (c :: rest)) := rfl

lemma noTwoFree_tail {b : Blk} {bs : List Blk}
    (h : noTwoFree (b :: bs) = true) : noTwoFree bs = true := by
  cases bs with
  | nil => rfl
  | cons c rest =>
    rw [noTwoFree_cons2, Bool.and_eq_true] at h
    exact h.2

lemma noTwoFree_pair {b c : Blk} {rest : List Blk}
    (h : noTwoFree (b :: c :: rest) = true) :
    ¬(b.isfree = true ∧ c.isfree = true) := by
  rw [noTwoFree_cons2, Bool.and_eq_true] at h
  intro hc
  simp [hc.1, hc.2] at h

lemma noTwoFree_cons_glue {p : Blk} {L : List Blk}
    (hL : noTwoFree L = true)
    (hpair : ¬(p.isfree = true ∧ headFree L = true)) :
    noTwoFree (p :: L) = true := by
  cases L with
  | nil => rfl
  | cons x xs =>
    rw [noTwoFree_cons2, Bool.and_eq_true]
    refine ⟨?_, hL⟩
    by_cases hp : p.isfree = true
    · have hx : x.isfree = false := by
        cases hx : x.isfree with
        | false => rfl
        | true => exact absurd ⟨hp, by simpa [headFree] using hx⟩ hpair
      simp [hx]
    · simp [Bool.eq_false_iff.mpr hp]

lemma noTwoFree_replace_head {r y : Blk} {rs : List Blk}
    (h : noTwoFree (r :: rs) = true) (hr : r.isfree = true) :
    noTwoFree (y :: rs) = true := by
  refine noTwoFree_cons_glue (noTwoFree_tail h) ?_
  rintro ⟨-, hhead⟩
  cases rs with
  | nil => simp [headFree] at hhead
  | cons c cs => exact noTwoFree_pair h ⟨hr, by simpa [headFree] using hhead⟩

lemma llm_some_free {l : Blk} (hl : l.isfree = true) (b : Blk) :
    lfree_left_merge (some l) b = [{ l with size := l.size + b.size }] := by
  simp [lfree_left_merge, hl]

lemma llm_some_used {l : Blk} (hl : l.isfree = false) (b : Blk) :
    lfree_left_merge (some l) b = [l, { b with isfree := true }] := by
  simp [lfree_left_merge, hl]

lemma llm_none (b : Blk) :
    lfree_left_merge none b = [{ b with isfree := true }] := rfl

lemma lfreeAt_free_free {l r : Blk} (b : Blk) (rs : List Blk)
    (hl : l.isfree = true) (hr : r.isfree = true) :
    lfreeAt (some l) b (r :: rs) =
      { l with size := l.size + b.size + r.size } :: rs := by
  unfold lfreeAt
  rw [llm_some_free hl]
  simp only [hr, if_pos, List.dropLast_single, List.getLast?_singleton,
    List.nil_append]
  rw [llm_some_free (show ({ l with size := l.size + b.size } : Blk).isfree =
    true from hl)]
  rfl

lemma lfreeAt_free_used {l r : Blk} (b : Blk) (rs : List Blk)
    (hl : l.isfree = true) (hr : r.isfree = false) :
    lfreeAt (some l) b (r :: rs) =
      { l with size := l.size + b.size } :: r :: rs := by
  unfold lfreeAt
  rw [llm_some_free hl]
  simp [hr]

lemma lfreeAt_used_free {l r : Blk} (b : Blk) (rs : List Blk)
    (hl : l.isfree = false) (hr : r.isfree = true) :
    lfreeAt (some l) b (r :: rs) =
      l :: { b with isfree := true, size := b.size + r.size } :: rs := by
  unfold lfreeAt
  rw [llm_some_used hl]
  simp only [hr, if_pos]
  show ([l] ++ lfree_left_merge (some { b with isfree := true }) r) ++ rs = _
  rw [llm_some_free (show ({ b with isfree := true } : Blk).isfree = true
    from rfl)]
  rfl

lemma lfreeAt_used_used {l r : Blk} (b : Blk) (rs : List Blk)
    (hl : l.isfree = false) (hr : r.isfree = false) :
    lfreeAt (some l) b (r :: rs) =
      l :: { b with isfree := true } :: r :: rs := by
  unfold lfreeAt
  rw [llm_some_used hl]
  simp [hr]

lemma lfreeAt_some_nil {l : Blk} (b : Blk) :
    lfreeAt (some l) b [] = lfree_left_merge (some l) b := rfl

lemma lfreeAt_none_free {r : Blk} (b : Blk) (rs : List Blk)
    (hr : r.isfree = true) :
    lfreeAt none b (r :: rs) =
      { b with isfree := true, size := b.size + r.size } :: rs := by
  unfold lfreeAt
  rw [llm_none]
  simp only [hr, if_pos, List.dropLast_single, List.getLast?_singleton,
    List.nil_append]
  rw [llm_some_free (show ({ b with isfree := true } : Blk).isfree = true
    from rfl)]
  rfl

lemma lfreeAt_none_used {r : Blk} (b : Blk) (rs : List Blk)
    (hr : r.isfree = false) :
    lfreeAt none b (r :: rs) = { b with isfree := true } :: r :: rs := by
  unfold lfreeAt
  rw [llm_none]
  simp [hr]

lemma lfreeAt_none_nil (b : Blk) :
    lfreeAt none b [] = [{ b with isfree := true }] := rfl

lemma noTwoFree_append_inuse : ∀ (bs : List Blk) (b : Blk),
    b.isfree = false → noTwoFree bs = true → noTwoFree (bs ++ [b]) = true
  | [], b, hb, _ => rfl
  | [x], b, hb, _ => by simp [noTwoFree_cons2, noTwoFree, hb]
  | x :: y :: rest, b, hb, h => by
    rw [List.cons_append, List.cons_append, noTwoFree_cons2, Bool.and_eq_true]
    rw [noTwoFree_cons2, Bool.and_eq_true] at h
    exact ⟨h.1, by
      have := noTwoFree_append_inuse (y :: rest) b hb h.2
      simpa using this⟩

lemma headFree_lfreeAt_some (l b : Blk) (rest : List Blk) :
    headFree (lfreeAt (some l) b rest) = l.isfree := by
  cases hl : l.isfree with
  | true =>
    cases rest with
    | nil => rw [lfreeAt_some_nil, llm_some_free hl]; simp [headFree, hl]
    | cons r rs =>
      cases hr : r.isfree with
      | true => rw [lfreeAt_free_free b rs hl hr]; simp [headFree, hl]
      | false => rw [lfreeAt_free_used b rs hl hr]; simp [headFree, hl]
  | false =>
    cases rest with
    | nil => rw [lfreeAt_some_nil, llm_some_used hl]; simp [headFree, hl]
    | cons r rs =>
      cases hr : r.isfree with
      | true => rw [lfreeAt_used_free b rs hl hr]; simp [headFree, hl]
      | false => rw [lfreeAt_used_used b rs hl hr]; simp [headFree, hl]

lemma headFree_lfreeHeapGo (a : Nat) : ∀ (bs : List Blk) (p : Blk),
    headFree (lfreeHeapGo a p bs) = p.isfree
  | [], p => rfl
  | b :: rest, p => by
    unfold lfreeHeapGo
    by_cases hb : b.addr = a
    · rw [if_pos hb, headFree_lfreeAt_some]
    · rw [if_neg hb]; rfl

lemma lfreeAt_ntf_some (l b : Blk) (rest : List Blk)
    (h : noTwoFree (l :: b :: rest) = true) :
    noTwoFree (lfreeAt (some l) b rest) = true := by
  have htail : noTwoFree (b :: rest) = true := noTwoFree_tail h
  cases hl : l.isfree with
  | true =>
    cases rest with
    | nil => rw [lfreeAt_some_nil, llm_some_free hl]; rfl
    | cons r rs =>
      cases hr : r.isfree with
      | true =>
        rw [lfreeAt_free_free b rs hl hr]
        exact noTwoFree_replace_head (noTwoFree_tail htail) hr
      | false =>
        rw [lfreeAt_free_used b rs hl hr]
        refine noTwoFree_cons_glue (noTwoFree_tail htail) ?_
        rintro ⟨-, hhead⟩
        simp [headFree, hr] at hhead
  | false =>
    cases rest with
    | nil =>
      rw [lfreeAt_some_nil, llm_some_used hl]
      refine noTwoFree_cons_glue rfl ?_
      rintro ⟨hlf, -⟩
      simp [hl] at hlf
    | cons r rs =>
      cases hr : r.isfree with
      | true =>
        rw [lfreeAt_used_free b rs hl hr]
        refine noTwoFree_cons_glue ?_ ?_
        · exact noTwoFree_replace_head (noTwoFree_tail htail) hr
        · rintro ⟨hlf, -⟩
          simp [hl] at hlf
      | false =>
        rw [lfreeAt_used_used b rs hl hr]
        refine noTwoFree_cons_glue ?_ ?_
        · refine noTwoFree_cons_glue (noTwoFree_tail htail) ?_
          rintro ⟨-, hhead⟩
          simp [headFree, hr] at hhead
        · rintro ⟨hlf, -⟩
          simp [hl] at hlf

lemma lfreeAt_ntf_none (b : Blk) (rest : List Blk)
    (h : noTwoFree (b :: rest) = true) :
    noTwoFree (lfreeAt none b rest) = true := by
  cases rest with
  | nil => rw [lfreeAt_none_nil]; rfl
  | cons r rs =>
    cases hr : r.isfree with
    | true =>
      rw [lfreeAt_none_free b rs hr]
      exact noTwoFree_replace_head (noTwoFree_tail h) hr
    | false =>
      rw [lfreeAt_none_used b rs hr]
      refine noTwoFree_cons_glue (noTwoFree_tail h) ?_
      rintro ⟨-, hhead⟩
      simp [headFree, hr] at hhead

lemma lfreeHeapGo_ntf (a : Nat) : ∀ (bs : List Blk) (p : Blk),
    noTwoFree (p :: bs) = true →
    noTwoFree (lfreeHeapGo a p bs) = true
  | [], p, _ => rfl
  | b :: rest, p, h => by
    unfold lfreeHeapGo
    by_cases hb : b.addr = a
    · rw [if_pos hb]
      exact lfreeAt_ntf_some p b rest h
    · rw [if_neg hb]
      refine noTwoFree_cons_glue (lfreeHeapGo_ntf a rest b (noTwoFree_tail h)) ?_
      rintro ⟨hp, hhead⟩
      rw [headFree_lfreeHeapGo] at hhead
      exact noTwoFree_pair h ⟨hp, hhead⟩

lemma lfreeHeap_ntf (a : Nat) (bs : List Blk)
    (h : noTwoFree bs = true) : noTwoFree (lfreeHeap a bs) = true := by
  cases bs with
  | nil => rfl
  | cons b rest =>
    unfold lfreeHeap
    show noTwoFree
      (if b.addr = a then lfreeAt none b rest else lfreeHeapGo a b rest) = true
    by_cases hb : b.addr = a
    · rw [if_pos hb]
      exact lfreeAt_ntf_none b rest h
    · rw [if_neg hb]
      exact lfreeHeapGo_ntf a rest b h

lemma noTwoFree_head_not_both {b : Blk} {rest : List Blk}
    (h : noTwoFree (b :: rest) = true) (hb : b.isfree = true) :
    headFree rest = false := by
  cases rest with
  | nil => rfl
  | cons c cs =>
    show c.isfree = false
    cases hc : c.isfree with
    | false => rfl
    | true => exact absurd ⟨hb, hc⟩ (noTwoFree_pair h)

lemma ffAlloc_ntf (size : Nat) : ∀ (bs bs' : List Blk) (q : Nat),
    ffAlloc size bs = some (bs', q) → noTwoFree bs = true →
    noTwoFree bs' = true ∧ (headFree bs' = true → headFree bs = true)
  | [], bs', q, h, _ => by simp [ffAlloc] at h
  | b :: rest, bs', q, h, hntf => by
    unfold ffAlloc at h
    by_cases hc : b.isfree = true ∧ size ≤ b.size
    · rw [if_pos hc] at h
      by_cases hs : size < b.size
      · rw [if_pos hs] at h
        simp only [Option.some.injEq, Prod.mk.injEq] at h
        obtain ⟨hbs, -⟩ := h
        subst hbs
        refine ⟨noTwoFree_cons_glue ?_ ?_, ?_⟩
        · exact noTwoFree_replace_head hntf hc.1
        · rintro ⟨hlf, -⟩
          simp [lmem_split_block] at hlf
        · intro hh
          simp [headFree, lmem_split_block] at hh
      · rw [if_neg hs] at h
        simp only [Option.some.injEq, Prod.mk.injEq] at h
        obtain ⟨hbs, -⟩ := h
        subst hbs
        refine ⟨noTwoFree_cons_glue (noTwoFree_tail hntf) ?_, ?_⟩
        · rintro ⟨hlf, -⟩
          simp [headFree] at hlf
        · intro hh
          simp [headFree] at hh
    · rw [if_neg hc] at h
      cases heq : ffAlloc size rest with
      | none => rw [heq] at h; simp at h
      | some pr =>
        obtain ⟨rest', q'⟩ := pr
        rw [heq] at h
        simp only [Option.some.injEq, Prod.mk.injEq] at h
        obtain ⟨hbs, -⟩ := h
        subst hbs
        obtain ⟨ih1, ih2⟩ :=
          ffAlloc_ntf size rest rest' q' heq (noTwoFree_tail hntf)
        refine ⟨noTwoFree_cons_glue ih1 ?_, fun hh => hh⟩
        rintro ⟨hbf, hhf⟩
        have h1 := noTwoFree_head_not_both hntf hbf
        rw [ih2 hhf] at h1
        exact Bool.noConfusion h1

lemma ffAlloc_none_of_no_fit (size : Nat) : ∀ bs : List Blk,
    (∀ b ∈ bs, ¬ fits size b) → ffAlloc size bs = none
  | [], _ => rfl
  | b :: rest, h => by
    unfold ffAlloc
    rw [if_neg (show ¬(b.isfree = true ∧ size ≤ b.size) from
        h b (List.mem_cons_self b rest)),
      ffAlloc_none_of_no_fit size rest
        (fun x hx => h x (List.mem_cons_of_mem b hx))]

lemma ffAlloc_of_firstFit (size : Nat) : ∀ (bs : List Blk) (i : Nat)
    (hi : i < bs.length),
    fits size (bs.get ⟨i, hi⟩) →
    (∀ j, j < i → ∀ (hj : j < bs.length), ¬ fits size (bs.get ⟨j, hj⟩)) →
    ffAlloc size bs = some
      (bs.take i ++
        (if size < (bs.get ⟨i, hi⟩).size then
          [{ bs.get ⟨i, hi⟩ with isfree := false, size := size },
           { addr := (bs.get ⟨i, hi⟩).addr + size * H, isfree := true,
             size := (bs.get ⟨i, hi⟩).size - size }]
         else [{ bs.get ⟨i, hi⟩ with isfree := false }]) ++
        bs.drop (i + 1),
      (bs.get ⟨i, hi⟩).addr + H)
  | [], i, hi, _, _ => absurd hi (by simp)
  | b :: rest, 0, hi, hfit, _ => by
    rw [show (b :: rest).get ⟨0, hi⟩ = b from rfl]
    unfold ffAlloc
    rw [if_pos (show b.isfree = true ∧ size ≤ b.size from hfit)]
    by_cases hs : size < b.size
    · rw [if_pos hs, if_pos hs]
      rfl
    · rw [if_neg hs, if_neg hs]
      rfl
  | b :: rest, j + 1, hi, hfit, hmin => by
    have hrest : j < rest.length := Nat.lt_of_succ_lt_succ hi
    have hget : (b :: rest).get ⟨j + 1, hi⟩ = rest.get ⟨j, hrest⟩ := rfl
    have hbnofit : ¬ fits size b :=
      hmin 0 (Nat.succ_pos j) (by simp)
    unfold ffAlloc
    rw [if_neg (show ¬(b.isfree = true ∧ size ≤ b.size) from hbnofit),
      ffAlloc_of_firstFit size rest j hrest (hget ▸ hfit)
        (fun k hk hk2 => hmin (k + 1) (Nat.succ_lt_succ hk)
          (Nat.succ_lt_succ hk2))]
    rw [hget]
    simp only [List.take_succ_cons, List.drop_succ_cons, List.cons_append]

lemma lmalloc_blocks_ntf (os : Oracles) (st : St) (len : Nat)
    (h : noTwoFree st.blocks = true) :
    noTwoFree (lmalloc os st len).1.blocks = true := by
  simp only [lmalloc]
  by_cases hl : TRESHOLD ≤ len
  · rw [if_pos hl]
    cases os.mmapO (pageAlign len) with
    | none => exact h
    | some a => exact h
  · rw [if_neg hl]
    cases heq : ffAlloc (sizeReq len) st.blocks with
    | some pr =>
      obtain ⟨bs', q⟩ := pr
      exact (ffAlloc_ntf (sizeReq len) st.blocks bs' q heq h).1
    | none =>
      simp only [lmalloc_new_block]
      by_cases hf : (new_memblk os.brkO st.lastBreak (sizeReq len)).2 = FAILP
      · rw [if_pos hf]; exact h
      · rw [if_neg hf]
        exact noTwoFree_append_inuse st.blocks _ rfl h

lemma lfree_blocks_ntf (st : St) (p : Nat)
    (h : noTwoFree st.blocks = true) :
    noTwoFree (lfree st p).1.blocks = true := by
  simp only [lfree]
  by_cases hp : p = 0
  · rw [if_pos hp]; exact h
  · rw [if_neg hp]
    cases st.mapped.find? (fun m => m.addr == p - H) with
    | none => exact lfreeHeap_ntf (p - H) st.blocks h
    | some m =>
      dsimp only
      by_cases hm : m.next = SENTINEL
      · rw [if_pos hm]; exact h
      · rw [if_neg hm]; exact lfreeHeap_ntf (p - H) st.blocks h

lemma lcalloc_blocks_ntf (os : Oracles) (st : St) (mem : Mem)
    (nlen len : Nat) (h : noTwoFree st.blocks = true) :
    noTwoFree (lcalloc os st mem nlen len).1.blocks = true := by
  simp only [lcalloc]
  by_cases hz : (lmalloc os st (nlen * len % W)).2 = 0
  · rw [if_pos hz]; exact lmalloc_blocks_ntf os st _ h
  · rw [if_neg hz]; exact lmalloc_blocks_ntf os st _ h

lemma lrealloc_blocks_ntf (os : Oracles) (st : St) (mem : Mem)
    (p len : Nat) (h : noTwoFree st.blocks = true) :
    noTwoFree (lrealloc os st mem p len).1.blocks = true := by
  simp only [lrealloc]
  by_cases hp : p = 0
  · rw [if_pos hp]
    exact lmalloc_blocks_ntf os st len h
  · rw [if_neg hp]
    cases st.mapped.find? (fun m => m.addr == p - H) with
    | none =>
      by_cases hz : (lmalloc os st len).2 = 0
      · rw [if_pos hz]; exact lmalloc_blocks_ntf os st len h
      · rw [if_neg hz]
        exact lfree_blocks_ntf _ p (lmalloc_blocks_ntf os st len h)
    | some m =>
      dsimp only
      by_cases hm : m.next = SENTINEL
      · rw [if_pos hm]
        cases os.mremapO m.addr m.size (pageAlign len) with
        | none => exact h
        | some a => exact h
      · rw [if_neg hm]
        by_cases hz : (lmalloc os st len).2 = 0
        · rw [if_pos hz]; exact lmalloc_blocks_ntf os st len h
        · rw [if_neg hz]
          exact lfree_blocks_ntf _ p (lmalloc_blocks_ntf os st len h)

lemma pageAlign_mod (len : Nat) : pageAlign len % PAGE = 0 :=
  Nat.mul_mod_left _ _

lemma lmalloc_mappedInv (os : Oracles) (st : St) (len : Nat)
    (h : MappedInv st) : MappedInv (lmalloc os st len).1 := by
  simp only [lmalloc]
  by_cases hl : TRESHOLD ≤ len
  · rw [if_pos hl]
    cases os.mmapO (pageAlign len) with
    | none => exact h
    | some a =>
      intro m hm
      rcases List.mem_cons.mp hm with hm | hm
      · subst hm; exact ⟨rfl, pageAlign_mod len, rfl⟩
      · exact h m hm
  · rw [if_neg hl]
    cases heq : ffAlloc (sizeReq len) st.blocks with
    | some pr => obtain ⟨bs', q⟩ := pr; exact h
    | none =>
      simp only [lmalloc_new_block]
      by_cases hf : (new_memblk os.brkO st.lastBreak (sizeReq len)).2 = FAILP
      · rw [if_pos hf]; exact h
      · rw [if_neg hf]; exact h

lemma lfree_mappedInv (st : St) (p : Nat)
    (h : MappedInv st) : MappedInv (lfree st p).1 := by
  simp only [lfree]
  by_cases hp : p = 0
  · rw [if_pos hp]; exact h
  · rw [if_neg hp]
    cases st.mapped.find? (fun m => m.addr == p - H) with
    | none => exact h
    | some m =>
      dsimp only
      by_cases hm : m.next = SENTINEL
      · rw [if_pos hm]
        exact fun x hx => h x (List.mem_of_mem_filter hx)
      · rw [if_neg hm]; exact h

lemma lrealloc_mappedInv (os : Oracles) (st : St) (mem : Mem)
    (p len : Nat) (h : MappedInv st) :
    MappedInv (lrealloc os st mem p len).1 := by
  simp only [lrealloc]
  by_cases hp : p = 0
  · rw [if_pos hp]
    exact lmalloc_mappedInv os st len h
  · rw [if_neg hp]
    cases st.mapped.find? (fun m => m.addr == p - H) with
    | none =>
      by_cases hz : (lmalloc os st len).2 = 0
      · rw [if_pos hz]; exact lmalloc_mappedInv os st len h
      · rw [if_neg hz]
        exact lfree_mappedInv _ p (lmalloc_mappedInv os st len h)
    | some m =>
      dsimp only
      by_cases hm : m.next = SENTINEL
      · rw [if_pos hm]
        cases os.mremapO m.addr m.size (pageAlign len) with
        | none => exact h
        | some a =>
          intro x hx
          rcases List.mem_cons.mp hx with hx | hx
          · subst hx; exact ⟨rfl, pageAlign_mod len, rfl⟩
          · exact h x (List.mem_of_mem_filter hx)
      · rw [if_neg hm]
        by_cases hz : (lmalloc os st len).2 = 0
        · rw [if_pos hz]; exact lmalloc_mappedInv os st len h
        · rw [if_neg hz]
          exact lfree_mappedInv _ p (lmalloc_mappedInv os st len h)

/-! ### Claim theorems -/

/-- C9: release of a null pointer returns immediately, with the allocator
state untouched and no munmap performed (in the source the header address
is computed from NULL but never dereferenced), and resize of a null
pointer behaves exactly as allocate of the requested length — for every
length, so in particular it routes to the mapping path when the length is
at or above the threshold, because the outcome is exactly `lmalloc`'s. -/
theorem lfree_null_lrealloc_null :
    (∀ st : St, lfree st 0 = (st, none)) ∧
    (∀ (os : Oracles) (st : St) (mem : Mem) (len : Nat),
      lrealloc os st mem 0 len =
        ((lmalloc os st len).1, mem, (lmalloc os st len).2)) := by
  constructor
  · intro st; simp [lfree]
  · intro os st mem len; simp [lrealloc]

/-- C4 counterexample: with a failing break oracle and cached break 8192,
`new_memblk` returns the FAILURE value but also overwrites the cached
break `last_break` with the failure value `(struct memblk_t *) -1`
(lmem.c line 60 assigns the syscall's return to `last_break` before the
failure check), so the cached break state IS mutated although the OS call
committed nothing. -/
theorem new_memblk_failure_clobbers_cache :
    (new_memblk (fun _ => FAILP) 8192 2).2 = FAILP ∧
    (new_memblk (fun _ => FAILP) 8192 2).1 = FAILP ∧
    (new_memblk (fun _ => FAILP) 8192 2).1 ≠ 8192 := by decide

/-- C4 (amended): when the heap-break syscall fails, `new_memblk` returns
the FAILURE value but overwrites the cached break `last_break` with the
syscall's FAILURE return, so the cached break no longer matches the OS
break; on success it returns new-break minus `size` (pointer arithmetic:
`size * H` bytes, mod `2^64`) and updates the cached break to the new
break. -/
theorem new_memblk_failure_success (brkO : Nat → Nat) (lb size : Nat)
    (hlb : lb ≠ 0) :
    (brkO ((lb + size * H) % W) % W = FAILP →
      new_memblk brkO lb size = (FAILP, FAILP)) ∧
    (brkO ((lb + size * H) % W) % W ≠ FAILP →
      new_memblk brkO lb size =
        (brkO ((lb + size * H) % W) % W,
         (brkO ((lb + size * H) % W) % W + W - size * H % W) % W)) := by
  constructor
  · intro hf
    simp [new_memblk, hlb, hf]
  · intro hf
    simp [new_memblk, hlb, hf]

/-- Witness for `new_memblk_failure_success` with the identity break
oracle (a break syscall that always succeeds with the requested target). -/
theorem new_memblk_failure_success_witness :
    ((8192 : Nat) ≠ 0) ∧
    (((8192 + 2 * H) % W % W = FAILP) →
      new_memblk (fun x => x) 8192 2 = (FAILP, FAILP)) ∧
    (((8192 + 2 * H) % W % W ≠ FAILP) →
      new_memblk (fun x => x) 8192 2 =
        ((8192 + 2 * H) % W % W,
         ((8192 + 2 * H) % W % W + W - 2 * H % W) % W)) :=
  ⟨by decide, new_memblk_failure_success (fun x => x) 8192 2 (by decide)⟩

/-- C6: for `size < block.size`, `lmem_split_block` leaves the lower block
with exactly `size` units, its address and `isfree` flag unchanged,
creates a free upper block of the remaining `block.size - size` units
placed immediately after the shrunk block (`block + size`), and placing
the pair at the block's position between its old neighbours (the source's
relinking, with the `tail` update implicit in the list representation)
preserves the contiguity invariant: each block's end address equals its
successor's start address. -/
theorem lmem_split_block_correct (pre post : List Blk) (b : Blk)
    (size : Nat) (hsz : size < b.size)
    (hcont : contiguous (pre ++ b :: post) = true) :
    ((lmem_split_block b size).1.addr = b.addr ∧
     (lmem_split_block b size).1.isfree = b.isfree ∧
     (lmem_split_block b size).1.size = size) ∧
    ((lmem_split_block b size).2.isfree = true ∧
     (lmem_split_block b size).2.size = b.size - size ∧
     (lmem_split_block b size).2.addr = b.addr + size * H) ∧
    contiguous (pre ++ (lmem_split_block b size).1 ::
      (lmem_split_block b size).2 :: post) = true := by
  have key : size * H + (b.size - size) * H = b.size * H := by
    rw [← Nat.add_mul, Nat.add_sub_cancel' (Nat.le_of_lt hsz)]
  refine ⟨⟨rfl, rfl, rfl⟩, ⟨rfl, rfl, rfl⟩, ?_⟩
  rw [contiguous_iff_chain] at hcont ⊢
  rw [List.chain'_append] at hcont ⊢
  obtain ⟨h1, h2, h3⟩ := hcont
  refine ⟨h1, ?_, ?_⟩
  · rw [List.chain'_cons]
    constructor
    · show (lmem_split_block b size).2.addr =
        (lmem_split_block b size).1.addr +
          (lmem_split_block b size).1.size * H
      rfl
    · rw [List.chain'_cons'] at h2 ⊢
      obtain ⟨h2a, h2b⟩ := h2
      refine ⟨?_, h2b⟩
      intro y hy
      have hba := h2a y hy
      show y.addr = (lmem_split_block b size).2.addr +
        (lmem_split_block b size).2.size * H
      show y.addr = b.addr + size * H + (b.size - size) * H
      rw [Nat.add_assoc, key]
      exact hba
  · intro x hx y hy
    simp only [List.head?] at hy
    rw [Option.mem_def, Option.some.injEq] at hy
    subst hy
    have := h3 x hx b (by simp [List.head?])
    exact this

/-- C7: when no fitting free block exists and the heap-break syscall
fails, `lmalloc` returns NULL and the heap block list is returned exactly
as it was — head, tail and every block header unchanged — so the
contiguity invariant still holds; the mapped list is also untouched. -/
theorem lmalloc_growth_failure (os : Oracles) (st : St) (len : Nat)
    (hlen : len < TRESHOLD)
    (hnofit : ∀ b ∈ st.blocks, ¬ fits (sizeReq len) b)
    (hbrk : ∀ x, os.brkO x = FAILP) :
    (lmalloc os st len).2 = 0 ∧
    (lmalloc os st len).1.blocks = st.blocks ∧
    (lmalloc os st len).1.mapped = st.mapped ∧
    (contiguous st.blocks = true →
      contiguous (lmalloc os st len).1.blocks = true) := by
  have hko : ¬ TRESHOLD ≤ len := Nat.not_le.mpr hlen
  have hff := ffAlloc_none_of_no_fit (sizeReq len) st.blocks hnofit
  have hFW : FAILP % W = FAILP := Nat.mod_eq_of_lt (by norm_num [FAILP, W])
  have hnm : (new_memblk os.brkO st.lastBreak (sizeReq len)).2 = FAILP := by
    simp [new_memblk, hbrk, hFW]
  have heq : lmalloc os st len =
      ({ st with lastBreak :=
          (new_memblk os.brkO st.lastBreak (sizeReq len)).1 }, 0) := by
    simp only [lmalloc, if_neg hko, hff, lmalloc_new_block, hnm, if_pos]
  rw [heq]
  exact ⟨rfl, rfl, rfl, fun h => h⟩

/-- C5: for `len` at or above the mapping threshold (16 pages of 4096
bytes each), `lmalloc` rounds the header-inclusive length up to page
granularity — the least multiple of the page size at least `len + H` —
and requests a mapping of that size.  On success it tags the block's
`next` field with the mapping-origin sentinel, records the rounded byte
size in the header, and returns the usable pointer `base + H`; on mapping
failure it returns NULL with the state unchanged.  In both outcomes the
heap block list (head, tail and all heap headers) and the cached break
are unchanged. -/
theorem lmalloc_mmap_path (os : Oracles) (st : St) (len : Nat)
    (hlen : TRESHOLD ≤ len) (hnw : len + H + PAGE - 1 < W) :
    (pageAlign len % PAGE = 0 ∧ len + H ≤ pageAlign len ∧
      pageAlign len < len + H + PAGE) ∧
    (∀ a, os.mmapO (pageAlign len) = some a →
      lmalloc os st len =
        ({ st with mapped :=
            ⟨a, pageAlign len, SENTINEL, pageAlign len⟩ :: st.mapped },
         a + H)) ∧
    (os.mmapO (pageAlign len) = none → lmalloc os st len = (st, 0)) ∧
    (lmalloc os st len).1.blocks = st.blocks ∧
    (lmalloc os st len).1.lastBreak = st.lastBreak := by
  refine ⟨?_, ?_, ?_, ?_, ?_⟩
  · simp only [pageAlign, PAGE, H, W] at hnw ⊢
    omega
  · intro a ha
    simp only [lmalloc, if_pos hlen, ha]
  · intro ha
    simp only [lmalloc, if_pos hlen, ha]
  · simp only [lmalloc, if_pos hlen]
    cases os.mmapO (pageAlign len) with
    | none => rfl
    | some a => rfl
  · simp only [lmalloc, if_pos hlen]
    cases os.mmapO (pageAlign len) with
    | none => rfl
    | some a => rfl

/-- C8: `lcalloc` computes the `size_t` product `count * len` with no
overflow check (the embedding computes it mod `2^64`; the hypothesis
restricts to the non-overflowing range, where the product is exact),
delegates to `lmalloc` with that product, and on success zero-fills the
entire `count * len`-byte region before returning it, so every byte of
the returned region reads as zero; on allocation failure it returns NULL
and the memory is untouched. -/
theorem lcalloc_zero_fill (os : Oracles) (st : St) (mem : Mem)
    (nlen len : Nat) (hnw : nlen * len < W) :
    (lcalloc os st mem nlen len).1 = (lmalloc os st (nlen * len)).1 ∧
    (lcalloc os st mem nlen len).2.2 = (lmalloc os st (nlen * len)).2 ∧
    ((lmalloc os st (nlen * len)).2 = 0 →
      (lcalloc os st mem nlen len).2.1 = mem) ∧
    ((lmalloc os st (nlen * len)).2 ≠ 0 →
      ∀ a, (lmalloc os st (nlen * len)).2 ≤ a →
        a < (lmalloc os st (nlen * len)).2 + nlen * len →
        (lcalloc os st mem nlen len).2.1 a = 0) := by
  have hmod : nlen * len % W = nlen * len := Nat.mod_eq_of_lt hnw
  simp only [lcalloc, hmod]
  by_cases hz : (lmalloc os st (nlen * len)).2 = 0
  · rw [if_pos hz]
    exact ⟨rfl, hz.symm, fun _ => rfl, fun hnz => absurd hz hnz⟩
  · rw [if_neg hz]
    refine ⟨rfl, rfl, fun h0 => absurd h0 hz, fun _ a ha1 ha2 => ?_⟩
    simp only [memset]
    rw [if_pos ⟨ha1, ha2⟩]

/-- C2: every public operation — allocate, zero-allocate, resize, release
— preserves the invariant that no two list-adjacent heap-resident blocks
are both free; and the release coalescing is fully bidirectional: when
the freed block's left and right neighbours are both free, the two
`lfree_left_merge` invocations performed by `lfree` produce the single
merged free block spanning all three. -/
theorem public_ops_no_two_free :
    (∀ (os : Oracles) (st : St) (len : Nat), noTwoFree st.blocks = true →
      noTwoFree (lmalloc os st len).1.blocks = true) ∧
    (∀ (os : Oracles) (st : St) (mem : Mem) (nlen len : Nat),
      noTwoFree st.blocks = true →
      noTwoFree (lcalloc os st mem nlen len).1.blocks = true) ∧
    (∀ (os : Oracles) (st : St) (mem : Mem) (p len : Nat),
      noTwoFree st.blocks = true →
      noTwoFree (lrealloc os st mem p len).1.blocks = true) ∧
    (∀ (st : St) (p : Nat), noTwoFree st.blocks = true →
      noTwoFree (lfree st p).1.blocks = true) ∧
    (∀ (l b r : Blk) (rs : List Blk), l.isfree = true → r.isfree = true →
      lfreeAt (some l) b (r :: rs) =
        { l with size := l.size + b.size + r.size } :: rs) :=
  ⟨lmalloc_blocks_ntf, lcalloc_blocks_ntf, lrealloc_blocks_ntf,
   lfree_blocks_ntf, fun _ b _ rs hl hr => lfreeAt_free_free b rs hl hr⟩

/-- C10: for every live mapping-resident block, the size stored in its
header equals the length of its OS mapping, which is page-aligned and
header-inclusive: allocate establishes this at mapping creation, resize
re-establishes it after a successful remap, release preserves it on the
remaining mappings, and release of a mapping-tagged pointer calls
`munmap` with exactly the stored size — under the invariant, the whole
mapping's length, so the entire mapping and nothing else is unmapped. -/
theorem mapped_size_invariant :
    (∀ (os : Oracles) (st : St) (len : Nat), MappedInv st →
      MappedInv (lmalloc os st len).1) ∧
    (∀ (os : Oracles) (st : St) (mem : Mem) (p len : Nat), MappedInv st →
      MappedInv (lrealloc os st mem p len).1) ∧
    (∀ (st : St) (p : Nat), MappedInv st → MappedInv (lfree st p).1) ∧
    (∀ (st : St) (p : Nat) (m : MBlk), MappedInv st → p ≠ 0 →
      st.mapped.find? (fun x => x.addr == p - H) = some m →
      (lfree st p).2 = some (p - H, m.size) ∧ m.size = m.osLen) := by
  refine ⟨lmalloc_mappedInv, lrealloc_mappedInv, lfree_mappedInv, ?_⟩
  intro st p m hinv hp hfind
  have hmem : m ∈ st.mapped := List.mem_of_find?_eq_some hfind
  have hm := hinv m hmem
  refine ⟨?_, hm.1⟩
  simp only [lfree, if_neg hp, hfind]
  rw [if_pos hm.2.2]

/-- C1: for every request below the mapping threshold, `lmalloc` computes
the required size in header units as the ceiling of `len` over the
header unit plus one (`sizeReq len - 1` is the least `k` with
`len ≤ H * k`), scans the block list linearly from head, and at the
first free block whose size is at least the requirement — even if a
tighter-fitting free block exists later in the list — marks it in-use
and returns the usable region one header unit past the header; the
selected block is split exactly when its size strictly exceeds the
requirement, otherwise the whole block is used.  The mapped list and the
cached break are untouched. -/
theorem lmalloc_first_fit (os : Oracles) (st : St) (len i : Nat)
    (hi : i < st.blocks.length)
    (hlen : len < TRESHOLD)
    (hfit : fits (sizeReq len) (st.blocks.get ⟨i, hi⟩))
    (hfirst : ∀ j, j < i → ∀ (hj : j < st.blocks.length),
      ¬ fits (sizeReq len) (st.blocks.get ⟨j, hj⟩)) :
    (len ≤ H * (sizeReq len - 1) ∧
      ∀ k, len ≤ H * k → sizeReq len - 1 ≤ k) ∧
    (lmalloc os st len).2 = (st.blocks.get ⟨i, hi⟩).addr + H ∧
    (lmalloc os st len).1.blocks =
      st.blocks.take i ++
        (if sizeReq len < (st.blocks.get ⟨i, hi⟩).size then
          [{ st.blocks.get ⟨i, hi⟩ with isfree := false, size := sizeReq len },
           { addr := (st.blocks.get ⟨i, hi⟩).addr + sizeReq len * H,
             isfree := true,
             size := (st.blocks.get ⟨i, hi⟩).size - sizeReq len }]
         else [{ st.blocks.get ⟨i, hi⟩ with isfree := false }]) ++
        st.blocks.drop (i + 1) ∧
    (lmalloc os st len).1.mapped = st.mapped ∧
    (lmalloc os st len).1.lastBreak = st.lastBreak := by
  have hko : ¬ TRESHOLD ≤ len := Nat.not_le.mpr hlen
  have hff := ffAlloc_of_firstFit (sizeReq len) st.blocks i hi hfit hfirst
  have hceil : len ≤ H * (sizeReq len - 1) ∧
      ∀ k, len ≤ H * k → sizeReq len - 1 ≤ k := by
    constructor
    · simp only [sizeReq, H]
      omega
    · intro k hk
      simp only [sizeReq, H] at hk ⊢
      omega
  refine ⟨hceil, ?_, ?_, ?_, ?_⟩ <;>
    simp only [lmalloc, if_neg hko, hff]

/-- C3: for a non-null pointer whose header is not mapping-tagged,
`lrealloc` allocates a brand-new block for `len` via `lmalloc`, copies
exactly `len` bytes from the old region into the new usable region
(bytes outside the destination range are untouched), releases the old
block, and returns the new usable pointer — regardless of whether `len`
is smaller or larger than the original allocation; consequently when
`len` is smaller than the original allocation the first `len` bytes of
content are preserved exactly. -/
theorem lrealloc_heap_copy_free (os : Oracles) (st : St) (mem : Mem)
    (p len : Nat) (hp : p ≠ 0)
    (hmap : st.mapped.find? (fun m => m.addr == p - H) = none)
    (hq : (lmalloc os st len).2 ≠ 0) :
    lrealloc os st mem p len =
      ((lfree (lmalloc os st len).1 p).1,
       memcpy mem (lmalloc os st len).2 p len, (lmalloc os st len).2) ∧
    (∀ i, i < len →
      memcpy mem (lmalloc os st len).2 p len ((lmalloc os st len).2 + i) =
        mem (p + i)) ∧
    (∀ a, a < (lmalloc os st len).2 ∨ (lmalloc os st len).2 + len ≤ a →
      memcpy mem (lmalloc os st len).2 p len a = mem a) := by
  refine ⟨?_, ?_, ?_⟩
  · simp only [lrealloc, if_neg hp, hmap]
    rw [if_neg hq]
  · intro i hilen
    simp only [memcpy]
    rw [if_pos ⟨Nat.le_add_right _ _, by omega⟩, Nat.add_sub_cancel_left]
  · intro a ha
    simp only [memcpy]
    rw [if_neg (by omega)]

/-- Witness for `lmalloc_first_fit`: a 40-byte request served by the
first free block (9 units at 4096) although a tighter fit (3 units at
4448) exists later; the block is split. -/
theorem lmalloc_first_fit_witness :
    ((0 : Nat) < 3) ∧ (40 < TRESHOLD) ∧
    fits (sizeReq 40) ⟨4096, true, 9⟩ ∧
    ((40 ≤ H * (sizeReq 40 - 1) ∧ ∀ k, 40 ≤ H * k → sizeReq 40 - 1 ≤ k) ∧
     (lmalloc wOS ⟨[⟨4096, true, 9⟩, ⟨4384, false, 2⟩, ⟨4448, true, 3⟩],
        [], 4544⟩ 40).2 = 4096 + H ∧
     (lmalloc wOS ⟨[⟨4096, true, 9⟩, ⟨4384, false, 2⟩, ⟨4448, true, 3⟩],
        [], 4544⟩ 40).1.blocks =
       [⟨4096, false, 3⟩, ⟨4192, true, 6⟩, ⟨4384, false, 2⟩,
        ⟨4448, true, 3⟩] ∧
     (lmalloc wOS ⟨[⟨4096, true, 9⟩, ⟨4384, false, 2⟩, ⟨4448, true, 3⟩],
        [], 4544⟩ 40).1.mapped = [] ∧
     (lmalloc wOS ⟨[⟨4096, true, 9⟩, ⟨4384, false, 2⟩, ⟨4448, true, 3⟩],
        [], 4544⟩ 40).1.lastBreak = 4544) :=
  ⟨by decide, by decide, by decide,
   lmalloc_first_fit wOS
     ⟨[⟨4096, true, 9⟩, ⟨4384, false, 2⟩, ⟨4448, true, 3⟩], [], 4544⟩
     40 0 (by decide) (by decide) (by decide)
     (fun j hj _ => absurd hj (Nat.not_lt_zero j))⟩

/-- Witness for `public_ops_no_two_free`: all four public operations on a
concrete two-block heap, and the two-sided coalescing equation on
concrete neighbours. -/
theorem public_ops_no_two_free_witness :
    (noTwoFree wST.blocks = true) ∧
    noTwoFree (lmalloc wOS wST 40).1.blocks = true ∧
    noTwoFree (lcalloc wOS wST wMem 2 3).1.blocks = true ∧
    noTwoFree (lrealloc wOS wST wMem 4128 8).1.blocks = true ∧
    noTwoFree (lfree wST 4128).1.blocks = true ∧
    lfreeAt (some ⟨4096, true, 2⟩) ⟨4160, false, 3⟩ [⟨4256, true, 4⟩] =
      [⟨4096, true, 9⟩] :=
  ⟨by decide,
   public_ops_no_two_free.1 wOS wST 40 (by decide),
   public_ops_no_two_free.2.1 wOS wST wMem 2 3 (by decide),
   public_ops_no_two_free.2.2.1 wOS wST wMem 4128 8 (by decide),
   public_ops_no_two_free.2.2.2.1 wST 4128 (by decide),
   public_ops_no_two_free.2.2.2.2 ⟨4096, true, 2⟩ ⟨4160, false, 3⟩
     ⟨4256, true, 4⟩ [] rfl rfl⟩

/-- Witness for `lrealloc_heap_copy_free`: resize of the in-use block at
usable address 4128 to 8 bytes on the concrete heap. -/
theorem lrealloc_heap_copy_free_witness :
    ((4128 : Nat) ≠ 0) ∧
    (wST.mapped.find? (fun m => m.addr == 4128 - H) = none) ∧
    ((lmalloc wOS wST 8).2 ≠ 0) ∧
    (lrealloc wOS wST wMem 4128 8 =
      ((lfree (lmalloc wOS wST 8).1 4128).1,
       memcpy wMem (lmalloc wOS wST 8).2 4128 8, (lmalloc wOS wST 8).2) ∧
     (∀ i, i < 8 →
       memcpy wMem (lmalloc wOS wST 8).2 4128 8
         ((lmalloc wOS wST 8).2 + i) = wMem (4128 + i)) ∧
     (∀ a, a < (lmalloc wOS wST 8).2 ∨ (lmalloc wOS wST 8).2 + 8 ≤ a →
       memcpy wMem (lmalloc wOS wST 8).2 4128 8 a = wMem a)) :=
  ⟨by decide, by decide, by decide,
   lrealloc_heap_copy_free wOS wST wMem 4128 8 (by decide) (by decide)
     (by decide)⟩

/-- Witness for `lmalloc_mmap_path`: a threshold-sized request granted a
mapping at base 1048576. -/
theorem lmalloc_mmap_path_witness :
    (TRESHOLD ≤ 65536) ∧ (65536 + H + PAGE - 1 < W) ∧
    ((pageAlign 65536 % PAGE = 0 ∧ 65536 + H ≤ pageAlign 65536 ∧
       pageAlign 65536 < 65536 + H + PAGE) ∧
     (∀ a, wOS.mmapO (pageAlign 65536) = some a →
       lmalloc wOS wST 65536 =
         ({ wST with mapped :=
             ⟨a, pageAlign 65536, SENTINEL, pageAlign 65536⟩ ::
               wST.mapped }, a + H)) ∧
     (wOS.mmapO (pageAlign 65536) = none →
       lmalloc wOS wST 65536 = (wST, 0)) ∧
     (lmalloc wOS wST 65536).1.blocks = wST.blocks ∧
     (lmalloc wOS wST 65536).1.lastBreak = wST.lastBreak) :=
  ⟨by decide, by decide,
   lmalloc_mmap_path wOS wST 65536 (by decide) (by decide)⟩

/-- Witness for `lmem_split_block_correct`: splitting the free 5-unit
block at 4160 after the in-use 2-unit block at 4096. -/
theorem lmem_split_block_correct_witness :
    ((2 : Nat) < 5) ∧
    (contiguous ([⟨4096, false, 2⟩] ++ (⟨4160, true, 5⟩ : Blk) :: []) =
      true) ∧
    (((lmem_split_block ⟨4160, true, 5⟩ 2).1.addr = 4160 ∧
      (lmem_split_block ⟨4160, true, 5⟩ 2).1.isfree = true ∧
      (lmem_split_block ⟨4160, true, 5⟩ 2).1.size = 2) ∧
     ((lmem_split_block ⟨4160, true, 5⟩ 2).2.isfree = true ∧
      (lmem_split_block ⟨4160, true, 5⟩ 2).2.size = 3 ∧
      (lmem_split_block ⟨4160, true, 5⟩ 2).2.addr = 4160 + 2 * H) ∧
     contiguous ([⟨4096, false, 2⟩] ++
       (lmem_split_block ⟨4160, true, 5⟩ 2).1 ::
         (lmem_split_block ⟨4160, true, 5⟩ 2).2 :: []) = true) :=
  ⟨by decide, by decide,
   lmem_split_block_correct [⟨4096, false, 2⟩] [] ⟨4160, true, 5⟩ 2
     (by decide) (by decide)⟩

/-- Witness for `lmalloc_growth_failure`: a 16-byte request on a heap
whose only block is in use, with every OS call refusing. -/
theorem lmalloc_growth_failure_witness :
    ((16 : Nat) < TRESHOLD) ∧
    (∀ b ∈ wSTFull.blocks, ¬ fits (sizeReq 16) b) ∧
    ((lmalloc wOSFail wSTFull 16).2 = 0 ∧
     (lmalloc wOSFail wSTFull 16).1.blocks = wSTFull.blocks ∧
     (lmalloc wOSFail wSTFull 16).1.mapped = wSTFull.mapped ∧
     (contiguous wSTFull.blocks = true →
       contiguous (lmalloc wOSFail wSTFull 16).1.blocks = true)) :=
  ⟨by decide, by decide,
   lmalloc_growth_failure wOSFail wSTFull 16 (by decide) (by decide)
     (fun _ => rfl)⟩

/-- Witness for `lcalloc_zero_fill`: `zero_allocate (2, 3)` on the
concrete heap; the 6-byte region is served from the free block. -/
theorem lcalloc_zero_fill_witness :
    (2 * 3 < W) ∧
    ((lcalloc wOS wST wMem 2 3).1 = (lmalloc wOS wST (2 * 3)).1 ∧
     (lcalloc wOS wST wMem 2 3).2.2 = (lmalloc wOS wST (2 * 3)).2 ∧
     ((lmalloc wOS wST (2 * 3)).2 = 0 →
       (lcalloc wOS wST wMem 2 3).2.1 = wMem) ∧
     ((lmalloc wOS wST (2 * 3)).2 ≠ 0 →
       ∀ a, (lmalloc wOS wST (2 * 3)).2 ≤ a →
         a < (lmalloc wOS wST (2 * 3)).2 + 2 * 3 →
         (lcalloc wOS wST wMem 2 3).2.1 a = 0)) :=
  ⟨by decide, lcalloc_zero_fill wOS wST wMem 2 3 (by decide)⟩

/-- Witness for `mapped_size_invariant`: the three preservations and the
munmap-length fact on a state holding one 69632-byte mapping. -/
theorem mapped_size_invariant_witness :
    MappedInv wSTM ∧ ((1048608 : Nat) ≠ 0) ∧
    (wSTM.mapped.find? (fun x => x.addr == 1048608 - H) =
      some ⟨1048576, 69632, SENTINEL, 69632⟩) ∧
    MappedInv (lmalloc wOS wSTM 65536).1 ∧
    MappedInv (lrealloc wOS wSTM wMem 1048608 131072).1 ∧
    MappedInv (lfree wSTM 1048608).1 ∧
    ((lfree wSTM 1048608).2 = some (1048608 - H, 69632) ∧
      (69632 : Nat) = 69632) :=
  ⟨by decide, by decide, by decide,
   mapped_size_invariant.1 wOS wSTM 65536 (by decide),
   mapped_size_invariant.2.1 wOS wSTM wMem 1048608 131072 (by decide),
   mapped_size_invariant.2.2.1 wSTM 1048608 (by decide),
   mapped_size_invariant.2.2.2 wSTM 1048608
     ⟨1048576, 69632, SENTINEL, 69632⟩ (by decide) (by decide) (by decide)⟩

end LMem
